import Mathlib

/-!
Verification of the characterbot data-preparation pipeline
(`prepare_finetune_data.py` and `prepare_pretrain_data.py`).

Modelling conventions (shallow embedding):
* Python strings are Lean `String`; `str.strip()` is `pyStrip` (drop
  whitespace from both ends).
* Python `int(x)` applied to the product `len(items) * train_ratio` is
  `pyTrunc` over `ℚ` (truncation toward zero); the literal `0.8` is the
  rational `4/5`.
* Python list slices `xs[:k]` and `xs[k:]` (including negative indices)
  are `pySliceTo` and `pySliceFrom`.
* The insertion-ordered `dict` used by `split_train_test` is an
  association list built by `insertLabel` (new keys appended at the end,
  existing buckets extended at the end), matching CPython dict semantics.
* A JSON object field that may be absent is an `Option` field;
  `obj.get(key, default)` is `Option.getD`.
* `json.load` either succeeds with a decoded list or raises; a load is
  modelled as an `Option` input to the pipeline functions, and the
  observable file behaviour of a run as a list of `PipelineEvent`s.
-/

/-- Python `str.strip()`: remove trailing, then leading, whitespace
(the two orders agree). -/
def pyStrip (s : String) : String :=
  ⟨((s.data.reverse.dropWhile Char.isWhitespace).reverse).dropWhile Char.isWhitespace⟩

/-- Python `int(q)` on a rational value: truncation toward zero. -/
def pyTrunc (q : ℚ) : Int :=
  if q < 0 then -((-q).floor) else q.floor

/-- Python slice `xs[:k]`, with CPython semantics for negative `k`. -/
def pySliceTo {α : Type} (xs : List α) (k : Int) : List α :=
  if 0 ≤ k then xs.take k.toNat else xs.take (xs.length - (-k).toNat)

/-- Python slice `xs[k:]`, with CPython semantics for negative `k`. -/
def pySliceFrom {α : Type} (xs : List α) (k : Int) : List α :=
  if 0 ≤ k then xs.drop k.toNat else xs.drop (xs.length - (-k).toNat)

/-- An output record of the fine-tune converters: the dict
`{"instruction": ..., "input": ..., "output": ..., "label": ...}`.
`label` is `Option String` so that `split_train_test`'s handling of
records lacking a `label` key is expressible. -/
structure Record where
  instruction : String
  input : String
  output : String
  label : Option String
deriving DecidableEq, Repr

/-- `item.get("label", "unknown")` from `split_train_test`. -/
def Record.getLabel (r : Record) : String :=
  r.label.getD "unknown"

/-- The `option` field of an MCQ qa_pair: a JSON mapping, a JSON
sequence, or any other value (`isinstance` checks in the source). -/
inductive OptionField where
  | omap : List (String × String) → OptionField
  | oseq : List String → OptionField
  | other : OptionField
deriving DecidableEq, Repr

/-- One element of an MCQ entry's `qa_pairs` list. -/
structure McqPair where
  question : Option String
  option : Option OptionField
  answer : Option String
deriving DecidableEq, Repr

/-- One entry of the MCQ source file. -/
structure McqEntry where
  qa_pairs : Option (List McqPair)
deriving DecidableEq, Repr

/-- One element of a QA entry's `qa_pairs` list. -/
structure QaPair where
  question : Option String
  answer : Option String
deriving DecidableEq, Repr

/-- One entry of the QA source file. -/
structure QaEntry where
  qa_pairs : Option (List QaPair)
deriving DecidableEq, Repr

/-- One element of a style entry's `transformed_sentences` list. -/
structure StyleItem where
  original : Option String
  plain : Option String
deriving DecidableEq, Repr

/-- One entry of the style-transfer source file. -/
structure StyleEntry where
  transformed_sentences : Option (List StyleItem)
deriving DecidableEq, Repr

/-- The `input_text` computation of `convert_mcq_to_alpaca` (lines
28-34), before the final `strip()`: the question, a newline, then the
option loop (`"{key}: {value}\n"` per mapping item, `"{option}\n"` per
sequence item, nothing for any other value). -/
def mcqInputText (question : String) (options : OptionField) : String :=
  match options with
  | OptionField.omap kvs =>
      kvs.foldl (fun input_text kv => input_text ++ kv.1 ++ ": " ++ kv.2 ++ "\n")
        (question ++ "\n")
  | OptionField.oseq os =>
      os.foldl (fun input_text o => input_text ++ o ++ "\n") (question ++ "\n")
  | OptionField.other => question ++ "\n"

/-- `convert_mcq_to_alpaca` (`prepare_finetune_data.py`, lines 18-42). -/
def convert_mcq_to_alpaca (entries : List McqEntry) : List Record :=
  entries.foldl (fun converted entry =>
    (entry.qa_pairs.getD []).foldl (fun converted qa =>
      let question := qa.question.getD ""
      let options := qa.option.getD (OptionField.omap [])
      let answer := qa.answer.getD ""
      converted ++ [{ instruction := "请在以下四个选项中选择一个最合适的答案。",
                      input := pyStrip (mcqInputText question options),
                      output := answer,
                      label := some "1" }]) converted) []

/-- `convert_qa_to_alpaca` (`prepare_finetune_data.py`, lines 45-59). -/
def convert_qa_to_alpaca (entries : List QaEntry) : List Record :=
  entries.foldl (fun converted entry =>
    (entry.qa_pairs.getD []).foldl (fun converted qa =>
      converted ++ [{ instruction := qa.question.getD "",
                      input := "",
                      output := qa.answer.getD "",
                      label := some "2" }]) converted) []

/-- `convert_style_to_alpaca` (`prepare_finetune_data.py`, lines 62-76). -/
def convert_style_to_alpaca (entries : List StyleEntry) : List Record :=
  entries.foldl (fun converted entry =>
    (entry.transformed_sentences.getD []).foldl (fun converted item =>
      converted ++ [{ instruction := "请将以下文本改写为更平白的表达方式。",
                      input := item.original.getD "",
                      output := item.plain.getD "",
                      label := some "3" }]) converted) []

/-- `labels_dict[label].append(item)` together with implicit key
creation: update the bucket of `lab` in place, or append a fresh
`(lab, [item])` at the end (dict insertion order). -/
def insertLabel : List (String × List Record) → String → Record → List (String × List Record)
  | [], lab, item => [(lab, [item])]
  | (k, v) :: rest, lab, item =>
      if k = lab then (k, v ++ [item]) :: rest
      else (k, v) :: insertLabel rest lab item

/-- The first loop of `split_train_test` (lines 80-85): build
`labels_dict` grouping the records by `item.get("label", "unknown")`. -/
def groupByLabel (data : List Record) : List (String × List Record) :=
  data.foldl (fun labels_dict item => insertLabel labels_dict item.getLabel item) []

/-- `split_train_test` (`prepare_finetune_data.py`, lines 79-95): the
second loop, over the `labels_dict` built by `groupByLabel`, extending
`train_data` with `items[:split_idx]` and `test_data` with
`items[split_idx:]` where `split_idx = int(len(items) * train_ratio)`. -/
def split_train_test (data : List Record) (train_ratio : ℚ) : List Record × List Record :=
  (groupByLabel data).foldl (fun acc p =>
    let split_idx := pyTrunc ((p.2.length : ℚ) * train_ratio)
    (acc.1 ++ pySliceTo p.2 split_idx, acc.2 ++ pySliceFrom p.2 split_idx)) ([], [])

/-- `merged_data = converted_mcq + converted_qa + converted_style`
(`prepare_finetune_data.py`, lines 108-116). -/
def merged_finetune_records (mcq_data : List McqEntry) (qa_data : List QaEntry)
    (style_data : List StyleEntry) : List Record :=
  convert_mcq_to_alpaca mcq_data ++ convert_qa_to_alpaca qa_data ++
    convert_style_to_alpaca style_data

/-- Observable file events of one pipeline run: a successful load, a
failed load (exception from `load_json_file`), or a file write. -/
inductive PipelineEvent where
  | loadOk : String → PipelineEvent
  | loadFail : String → PipelineEvent
  | writeFile : String → PipelineEvent
deriving DecidableEq, Repr

/-- `merge_finetune_data` (`prepare_finetune_data.py`, lines 98-141):
the three loads happen first, in order; a failed load raises and ends
the run; only after all three succeed are the two output files written.
Returns the event trace and, on success, the train/test pair. -/
def merge_finetune_data (mcq_load : Option (List McqEntry)) (qa_load : Option (List QaEntry))
    (style_load : Option (List StyleEntry)) :
    List PipelineEvent × Option (List Record × List Record) :=
  match mcq_load with
  | none => ([PipelineEvent.loadFail "mcq"], none)
  | some mcq_data =>
    match qa_load with
    | none => ([PipelineEvent.loadOk "mcq", PipelineEvent.loadFail "qa"], none)
    | some qa_data =>
      match style_load with
      | none => ([PipelineEvent.loadOk "mcq", PipelineEvent.loadOk "qa",
                  PipelineEvent.loadFail "style"], none)
      | some style_data =>
        let merged_data := merged_finetune_records mcq_data qa_data style_data
        let split := split_train_test merged_data (4/5)
        ([PipelineEvent.loadOk "mcq", PipelineEvent.loadOk "qa", PipelineEvent.loadOk "style",
          PipelineEvent.writeFile "fine_tune.json", PipelineEvent.writeFile "test.json"],
         some split)

/-- One entry of the pretrain original-text source file. -/
structure OriginalEntry where
  title : Option String
  text : Option String
deriving DecidableEq, Repr

/-- One entry of the pretrain reframe source file. -/
structure ReframeEntry where
  text : Option String
deriving DecidableEq, Repr

/-- An output record of the pretrain pipeline: the dict `{"text": ...}`. -/
structure PretrainRecord where
  text : String
deriving DecidableEq, Repr

/-- `convert_original_to_pretrain` (`prepare_pretrain_data.py`, lines 18-26). -/
def convert_original_to_pretrain (entries : List OriginalEntry) (author : String) :
    List PretrainRecord :=
  entries.foldl (fun converted entry =>
    let title := entry.title.getD ""
    let text := entry.text.getD ""
    let metadata := "[作者: " ++ author ++ "][标题: " ++ title ++ "]"
    let full_text := metadata ++ text
    converted ++ [{ text := full_text }]) []

/-- `convert_reframe_to_pretrain` (`prepare_pretrain_data.py`, lines 29-34). -/
def convert_reframe_to_pretrain (entries : List ReframeEntry) : List PretrainRecord :=
  entries.foldl (fun converted entry =>
    converted ++ [{ text := entry.text.getD "" }]) []

/-- `merge_json_files` (`prepare_pretrain_data.py`, lines 37-66): both
loads happen before the single write; a failed load raises and ends the
run. Returns the event trace and, on success, the merged record list. -/
def merge_json_files (original_load : Option (List OriginalEntry))
    (reframe_load : Option (List ReframeEntry)) (author : String) :
    List PipelineEvent × Option (List PretrainRecord) :=
  match original_load with
  | none => ([PipelineEvent.loadFail "original"], none)
  | some original_data =>
    match reframe_load with
    | none => ([PipelineEvent.loadOk "original", PipelineEvent.loadFail "reframe"], none)
    | some reframe_data =>
      let merged_data := convert_original_to_pretrain original_data author ++
        convert_reframe_to_pretrain reframe_data
      ([PipelineEvent.loadOk "original", PipelineEvent.loadOk "reframe",
        PipelineEvent.writeFile "pre_train.json"], some merged_data)

/-- Following the spec's words: the option lines of an MCQ input block,
one line per option, `key: value` for a mapping, the option text
verbatim for a sequence, and nothing for any other value. -/
def optionLinesSpec : OptionField → List String
  | OptionField.omap kvs => kvs.map (fun kv => kv.1 ++ ": " ++ kv.2)
  | OptionField.oseq os => os
  | OptionField.other => []

/-- Following the spec's words: the label values of a record list in
first-seen order, each value kept only at its first occurrence, starting
from an already-seen list. -/
def firstSeenFrom (seen : List String) : List String → List String
  | [] => []
  | x :: xs =>
      if x ∈ seen then firstSeenFrom seen xs
      else x :: firstSeenFrom (seen ++ [x]) xs

/-- The bucket of key `k` in an association list (empty if absent). -/
def findGroup : List (String × List Record) → String → List Record
  | [], _ => []
  | (k', v) :: rest, k => if k' = k then v else findGroup rest k

/-! ### Generic accumulator lemmas -/

theorem foldl_step_append_one {α β : Type} (step : List β → α → List β) (f : α → β)
    (h : ∀ a x, step a x = a ++ [f x]) :
    ∀ (l : List α) (acc : List β), l.foldl step acc = acc ++ l.map f := by
  intro l
  induction l with
  | nil => intro acc; simp
  | cons x xs ih => intro acc; simp [List.foldl_cons, h, ih]

theorem foldl_step_append_list {α β : Type} (step : List β → α → List β) (g : α → List β)
    (h : ∀ a x, step a x = a ++ g x) :
    ∀ (l : List α) (acc : List β), l.foldl step acc = acc ++ l.flatMap g := by
  intro l
  induction l with
  | nil => intro acc; simp
  | cons x xs ih => intro acc; simp [List.foldl_cons, h, ih]

theorem foldl_step_append_pair {α β : Type} (step : List β × List β → α → List β × List β)
    (g₁ g₂ : α → List β) (h : ∀ a x, step a x = (a.1 ++ g₁ x, a.2 ++ g₂ x)) :
    ∀ (l : List α) (acc : List β × List β),
      l.foldl step acc = (acc.1 ++ l.flatMap g₁, acc.2 ++ l.flatMap g₂) := by
  intro l
  induction l with
  | nil => intro acc; simp
  | cons x xs ih => intro acc; simp [List.foldl_cons, h, ih]

theorem string_join_cons (s : String) (l : List String) :
    String.join (s :: l) = s ++ String.join l := by
  have key : ∀ (l : List String) (a : String),
      l.foldl (fun r t => r ++ t) a = a ++ l.foldl (fun r t => r ++ t) "" := by
    intro l
    induction l with
    | nil => intro a; simp
    | cons x xs ih =>
        intro a
        simp only [List.foldl_cons]
        rw [ih (a ++ x), ih ("" ++ x)]
        simp [String.append_assoc]
  simp only [String.join, List.foldl_cons]
  rw [key l ("" ++ s)]
  simp

theorem string_foldl_step {α : Type} (step : String → α → String) (f : α → String)
    (h : ∀ a x, step a x = a ++ f x) :
    ∀ (l : List α) (acc : String), l.foldl step acc = acc ++ String.join (l.map f) := by
  intro l
  induction l with
  | nil => intro acc; simp [String.join]
  | cons x xs ih =>
      intro acc
      simp only [List.foldl_cons, h, List.map_cons, string_join_cons]
      rw [ih, String.append_assoc]

/-! ### Closed forms of the converters -/

/-- The assembled MCQ input block is the question, a newline, and one
newline-terminated line per option as described by `optionLinesSpec`. -/
theorem mcqInputText_eq_spec (question : String) (options : OptionField) :
    mcqInputText question options =
      question ++ "\n" ++ String.join ((optionLinesSpec options).map (fun line => line ++ "\n")) := by
  cases options with
  | omap kvs =>
      have hfun : ((fun line => line ++ "\n") ∘ fun kv : String × String => kv.1 ++ ": " ++ kv.2)
          = fun kv : String × String => kv.1 ++ ": " ++ kv.2 ++ "\n" := by
        funext kv
        simp [Function.comp, String.append_assoc]
      rw [mcqInputText, optionLinesSpec,
        string_foldl_step _ (fun kv => kv.1 ++ ": " ++ kv.2 ++ "\n")
          (by intro a x; simp [String.append_assoc]),
        List.map_map, hfun]
  | oseq os =>
      rw [mcqInputText, optionLinesSpec,
        string_foldl_step _ (fun o => o ++ "\n") (by intro a x; simp [String.append_assoc])]
  | other => simp [mcqInputText, optionLinesSpec, String.join]

theorem convert_mcq_to_alpaca_eq (entries : List McqEntry) :
    convert_mcq_to_alpaca entries =
      (entries.flatMap fun entry => entry.qa_pairs.getD []).map (fun qa =>
        { instruction := "请在以下四个选项中选择一个最合适的答案。",
          input := pyStrip (mcqInputText (qa.question.getD "") (qa.option.getD (OptionField.omap []))),
          output := qa.answer.getD "",
          label := some "1" }) := by
  rw [convert_mcq_to_alpaca,
    foldl_step_append_list _
      (fun entry => (entry.qa_pairs.getD []).map (fun qa =>
        ({ instruction := "请在以下四个选项中选择一个最合适的答案。",
           input := pyStrip (mcqInputText (qa.question.getD "") (qa.option.getD (OptionField.omap []))),
           output := qa.answer.getD "",
           label := some "1" } : Record)))
      (fun a entry => foldl_step_append_one _ _ (fun a qa => rfl) _ a)]
  simp [List.map_flatMap]

theorem convert_qa_to_alpaca_eq (entries : List QaEntry) :
    convert_qa_to_alpaca entries =
      (entries.flatMap fun entry => entry.qa_pairs.getD []).map (fun qa =>
        { instruction := qa.question.getD "",
          input := "",
          output := qa.answer.getD "",
          label := some "2" }) := by
  rw [convert_qa_to_alpaca,
    foldl_step_append_list _
      (fun entry => (entry.qa_pairs.getD []).map (fun qa =>
        ({ instruction := qa.question.getD "",
           input := "",
           output := qa.answer.getD "",
           label := some "2" } : Record)))
      (fun a entry => foldl_step_append_one _ _ (fun a qa => rfl) _ a)]
  simp [List.map_flatMap]

theorem convert_style_to_alpaca_eq (entries : List StyleEntry) :
    convert_style_to_alpaca entries =
      (entries.flatMap fun entry => entry.transformed_sentences.getD []).map (fun item =>
        { instruction := "请将以下文本改写为更平白的表达方式。",
          input := item.original.getD "",
          output := item.plain.getD "",
          label := some "3" }) := by
  rw [convert_style_to_alpaca,
    foldl_step_append_list _
      (fun entry => (entry.transformed_sentences.getD []).map (fun item =>
        ({ instruction := "请将以下文本改写为更平白的表达方式。",
           input := item.original.getD "",
           output := item.plain.getD "",
           label := some "3" } : Record)))
      (fun a entry => foldl_step_append_one _ _ (fun a item => rfl) _ a)]
  simp [List.map_flatMap]

theorem convert_original_to_pretrain_eq (entries : List OriginalEntry) (author : String) :
    convert_original_to_pretrain entries author =
      entries.map (fun entry =>
        { text := "[作者: " ++ author ++ "][标题: " ++ entry.title.getD "" ++ "]" ++
            entry.text.getD "" }) := by
  rw [convert_original_to_pretrain]
  exact (foldl_step_append_one _
    (fun entry => ({ text := "[作者: " ++ author ++ "][标题: " ++ entry.title.getD "" ++ "]" ++
      entry.text.getD "" } : PretrainRecord)) (fun a entry => rfl) entries []).trans
    (List.nil_append _)

theorem convert_reframe_to_pretrain_eq (entries : List ReframeEntry) :
    convert_reframe_to_pretrain entries =
      entries.map (fun entry => { text := entry.text.getD "" }) := by
  rw [convert_reframe_to_pretrain]
  exact (foldl_step_append_one _
    (fun entry => ({ text := entry.text.getD "" } : PretrainRecord))
    (fun a entry => rfl) entries []).trans (List.nil_append _)

/-! ### Properties of the label grouping -/

theorem findGroup_insertLabel (d : List (String × List Record)) (lab : String) (item : Record)
    (k : String) :
    findGroup (insertLabel d lab item) k =
      if k = lab then findGroup d k ++ [item] else findGroup d k := by
  induction d with
  | nil =>
      by_cases hk : k = lab
      · simp [insertLabel, findGroup, hk]
      · simp [insertLabel, findGroup, hk, Ne.symm hk]
  | cons p rest ih =>
      obtain ⟨k', v⟩ := p
      by_cases h1 : k' = lab
      · by_cases hk : k = lab
        · simp [insertLabel, findGroup, h1, hk]
        · have h2 : ¬ k' = k := by intro h; exact hk (h ▸ h1)
          simp [insertLabel, findGroup, h1, hk, h2, Ne.symm hk]
      · by_cases h2 : k' = k
        · have h3 : ¬ k = lab := by intro h; exact h1 (h ▸ h2)
          simp [insertLabel, findGroup, h1, h2, h3]
        · simp [insertLabel, findGroup, h1, h2, ih]

theorem keys_insertLabel (d : List (String × List Record)) (lab : String) (item : Record) :
    (insertLabel d lab item).map Prod.fst =
      if lab ∈ d.map Prod.fst then d.map Prod.fst else d.map Prod.fst ++ [lab] := by
  induction d with
  | nil => simp [insertLabel]
  | cons p rest ih =>
      obtain ⟨k', v⟩ := p
      by_cases h1 : k' = lab
      · simp [insertLabel, h1]
      · have hne : ¬ lab = k' := Ne.symm h1
        by_cases h2 : lab ∈ rest.map Prod.fst
        · simp [insertLabel, h1, ih, hne, h2]
        · simp [insertLabel, h1, ih, hne, h2]

theorem findGroup_groupByLabel (data : List Record) (k : String) :
    findGroup (groupByLabel data) k = data.filter (fun r => r.getLabel = k) := by
  suffices h : ∀ (data : List Record) (d : List (String × List Record)),
      findGroup (data.foldl (fun labels_dict item => insertLabel labels_dict item.getLabel item) d) k
        = findGroup d k ++ data.filter (fun r => r.getLabel = k) by
    simpa [groupByLabel] using h data []
  intro data
  induction data with
  | nil => intro d; simp
  | cons r rest ih =>
      intro d
      simp only [List.foldl_cons]
      rw [ih, findGroup_insertLabel]
      by_cases hr : r.getLabel = k
      · simp [hr, List.filter_cons, List.append_assoc]
      · have : ¬ k = r.getLabel := fun h => hr h.symm
        simp [hr, this, List.filter_cons]

theorem keys_groupByLabel (data : List Record) :
    (groupByLabel data).map Prod.fst = firstSeenFrom [] (data.map Record.getLabel) := by
  suffices h : ∀ (data : List Record) (d : List (String × List Record)),
      (data.foldl (fun labels_dict item => insertLabel labels_dict item.getLabel item) d).map
          Prod.fst
        = d.map Prod.fst ++ firstSeenFrom (d.map Prod.fst) (data.map Record.getLabel) by
    simpa [groupByLabel] using h data []
  intro data
  induction data with
  | nil => intro d; simp [firstSeenFrom]
  | cons r rest ih =>
      intro d
      simp only [List.foldl_cons, List.map_cons]
      rw [ih, keys_insertLabel]
      by_cases hmem : r.getLabel ∈ d.map Prod.fst
      · simp [hmem, firstSeenFrom]
      · simp [hmem, firstSeenFrom, List.append_assoc]

/-! ### Closed form of the split -/

theorem split_train_test_eq (data : List Record) (ratio : ℚ) :
    split_train_test data ratio =
      ((groupByLabel data).flatMap
        (fun p => pySliceTo p.2 (pyTrunc ((p.2.length : ℚ) * ratio))),
       (groupByLabel data).flatMap
        (fun p => pySliceFrom p.2 (pyTrunc ((p.2.length : ℚ) * ratio)))) := by
  have h := foldl_step_append_pair
    (fun (acc : List Record × List Record) (p : String × List Record) =>
      let split_idx := pyTrunc ((p.2.length : ℚ) * ratio)
      (acc.1 ++ pySliceTo p.2 split_idx, acc.2 ++ pySliceFrom p.2 split_idx))
    (fun p => pySliceTo p.2 (pyTrunc ((p.2.length : ℚ) * ratio)))
    (fun p => pySliceFrom p.2 (pyTrunc ((p.2.length : ℚ) * ratio)))
    (fun a p => rfl) (groupByLabel data) ([], [])
  simpa [split_train_test] using h

theorem pyTrunc_natCast_mul_four_fifths (n : ℕ) :
    pyTrunc ((n : ℚ) * (4/5)) = ((4 * n) / 5 : ℕ) := by
  have h0 : (0 : ℚ) ≤ (n : ℚ) * (4/5) := by positivity
  have hq : ((n : ℚ) * (4/5)) = (((4 * n : ℕ) : ℤ) : ℚ) / ((5 : ℕ) : ℚ) := by
    push_cast
    ring
  rw [pyTrunc, if_neg (not_lt.mpr h0)]
  rw [show ((n : ℚ) * (4/5)).floor = ⌊(n : ℚ) * (4/5)⌋ from
    (Rat.floor_def' ((n : ℚ) * (4/5))).trans Rat.floor_def.symm]
  rw [hq, Rat.floor_intCast_div_natCast]
  exact_mod_cast rfl

/-! ### Properties of stripping and slicing -/

theorem pyStrip_append_newline (s : String) : pyStrip (s ++ "\n") = pyStrip s := by
  have hdata : (s ++ "\n").data = s.data ++ ['\n'] := by
    rw [String.data_append]
  have hnl : Char.isWhitespace '\n' = true := by decide
  simp [pyStrip, hdata, hnl, List.dropWhile_cons]

theorem pySliceTo_append_pySliceFrom {α : Type} (xs : List α) (k : Int) :
    pySliceTo xs k ++ pySliceFrom xs k = xs := by
  by_cases h : 0 ≤ k <;> simp [pySliceTo, pySliceFrom, h, List.take_append_drop]

theorem pySliceTo_natCast {α : Type} (xs : List α) (m : ℕ) :
    pySliceTo xs (m : ℤ) = xs.take m := by
  simp [pySliceTo]

theorem pySliceFrom_natCast {α : Type} (xs : List α) (m : ℕ) :
    pySliceFrom xs (m : ℤ) = xs.drop m := by
  simp [pySliceFrom]

/-! ### Permutation lemmas for the split -/

theorem flatten_insertLabel (d : List (String × List Record)) (lab : String) (item : Record) :
    ((insertLabel d lab item).flatMap (fun p => p.2)).Perm
      ((d.flatMap fun p => p.2) ++ [item]) := by
  induction d with
  | nil => simp [insertLabel]
  | cons p rest ih =>
      obtain ⟨k', v⟩ := p
      by_cases h1 : k' = lab
      · simp only [insertLabel, if_pos h1, List.flatMap_cons, List.append_assoc]
        exact List.Perm.append_left v List.perm_append_comm
      · simp only [insertLabel, if_neg h1, List.flatMap_cons, List.append_assoc]
        exact List.Perm.append_left v ih

theorem flatten_groupByLabel_perm (data : List Record) :
    ((groupByLabel data).flatMap (fun p => p.2)).Perm data := by
  suffices h : ∀ (data : List Record) (d : List (String × List Record)),
      ((data.foldl (fun labels_dict item => insertLabel labels_dict item.getLabel item)
          d).flatMap (fun p => p.2)).Perm ((d.flatMap fun p => p.2) ++ data) by
    simpa [groupByLabel] using h data []
  intro data
  induction data with
  | nil => intro d; simp
  | cons r rest ih =>
      intro d
      simp only [List.foldl_cons]
      refine (ih _).trans ?_
      refine (List.Perm.append_right rest (flatten_insertLabel d r.getLabel r)).trans ?_
      simp [List.append_assoc]

theorem flatMap_append_perm {α β : Type} (g h : α → List β) (l : List α) :
    (l.flatMap g ++ l.flatMap h).Perm (l.flatMap fun x => g x ++ h x) := by
  induction l with
  | nil => simp
  | cons x xs ih =>
      simp only [List.flatMap_cons]
      have step1 : (g x ++ xs.flatMap g) ++ (h x ++ xs.flatMap h)
          = g x ++ ((xs.flatMap g ++ h x) ++ xs.flatMap h) := by
        simp [List.append_assoc]
      have step2 : ((xs.flatMap g ++ h x) ++ xs.flatMap h).Perm
          ((h x ++ xs.flatMap g) ++ xs.flatMap h) :=
        List.Perm.append_right _ List.perm_append_comm
      rw [step1, List.append_assoc (g x) (h x)]
      refine List.Perm.append_left (g x) (step2.trans ?_)
      rw [List.append_assoc]
      exact List.Perm.append_left (h x) ih

/-! ### The split at the default ratio 0.8 = 4/5 -/

theorem split_train_test_four_fifths (data : List Record) :
    split_train_test data (4/5) =
      ((groupByLabel data).flatMap (fun p => p.2.take ((4 * p.2.length) / 5)),
       (groupByLabel data).flatMap (fun p => p.2.drop ((4 * p.2.length) / 5))) := by
  have hto : (fun p : String × List Record =>
        pySliceTo p.2 (pyTrunc ((p.2.length : ℚ) * (4/5))))
      = fun p : String × List Record => p.2.take ((4 * p.2.length) / 5) := by
    funext p
    rw [pyTrunc_natCast_mul_four_fifths, pySliceTo_natCast]
  have hfrom : (fun p : String × List Record =>
        pySliceFrom p.2 (pyTrunc ((p.2.length : ℚ) * (4/5))))
      = fun p : String × List Record => p.2.drop ((4 * p.2.length) / 5) := by
    funext p
    rw [pyTrunc_natCast_mul_four_fifths, pySliceFrom_natCast]
  rw [split_train_test_eq, hto, hfrom]

theorem findGroup_mem (d : List (String × List Record)) (k : String)
    (h : findGroup d k ≠ []) : (k, findGroup d k) ∈ d := by
  induction d with
  | nil => simp [findGroup] at h
  | cons p rest ih =>
      obtain ⟨k', v⟩ := p
      by_cases hk : k' = k
      · subst hk
        simp [findGroup]
      · simp only [findGroup, if_neg hk] at h ⊢
        exact List.mem_cons_of_mem _ (ih h)

theorem split_train_test_singleton (r : Record) :
    split_train_test [r] (4/5) = ([], [r]) := by
  rw [split_train_test_four_fifths]
  have hg : groupByLabel [r] = [(r.getLabel, [r])] := rfl
  rw [hg]
  simp

/-! ### Claims -/

/-- C1: at `train_ratio = 0.8 = 4/5`, `split_train_test` groups the
records by label value, the bucket of each label being exactly the input
records with that label in their original order, the buckets appearing
in label-first-seen order; each bucket contributes its first
`floor(count * 4/5)` records to the training list and the remainder to
the test list, concatenated bucket by bucket; and the function is
deterministic (it is a pure function, so rerunning on the same input
yields the same pair). -/
theorem claim_C1_stratified_split (data : List Record) :
    split_train_test data (4/5) =
      ((groupByLabel data).flatMap (fun p => p.2.take ((4 * p.2.length) / 5)),
       (groupByLabel data).flatMap (fun p => p.2.drop ((4 * p.2.length) / 5)))
    ∧ (∀ k : String,
        findGroup (groupByLabel data) k = data.filter (fun r => r.getLabel = k))
    ∧ (groupByLabel data).map Prod.fst = firstSeenFrom [] (data.map Record.getLabel)
    ∧ split_train_test data (4/5) = split_train_test data (4/5) :=
  ⟨split_train_test_four_fifths data, findGroup_groupByLabel data,
   keys_groupByLabel data, rfl⟩

/-- C1 witness: on three records with labels "1", "2", "1", the bucket
of "1" is both records with that label in order and the keys are in
first-seen order. -/
theorem claim_C1_stratified_split_witness :
    findGroup (groupByLabel
        [{ instruction := "a", input := "", output := "", label := some "1" },
         { instruction := "b", input := "", output := "", label := some "2" },
         { instruction := "c", input := "", output := "", label := some "1" }]) "1"
      = [{ instruction := "a", input := "", output := "", label := some "1" },
         { instruction := "c", input := "", output := "", label := some "1" }] := by
  rw [(claim_C1_stratified_split
    [{ instruction := "a", input := "", output := "", label := some "1" },
     { instruction := "b", input := "", output := "", label := some "2" },
     { instruction := "c", input := "", output := "", label := some "1" }]).2.1 "1"]
  decide

/-- C2 counterexample: the claim fails on a label that occurs exactly
once. For the single-record input with label "2", the training list is
empty, so label "2" is present in the input but not in the training
set (`int(1 * 0.8) = 0`). -/
theorem claim_C2_counterexample :
    ¬ ∀ (data : List Record) (lab : String),
        (∃ r ∈ data, r.getLabel = lab) →
          ∃ r ∈ (split_train_test data (4/5)).1, r.getLabel = lab := by
  intro hclaim
  obtain ⟨r, hr, _⟩ := hclaim
    [{ instruction := "q", input := "", output := "a", label := some "2" }] "2"
    ⟨{ instruction := "q", input := "", output := "a", label := some "2" },
     List.mem_singleton_self _, rfl⟩
  rw [split_train_test_singleton] at hr
  exact absurd hr (List.not_mem_nil r)

/-- C2 (amended): every label value occurring in at least two input
records is represented in the training list produced by
`split_train_test` with `train_ratio = 0.8` (for a group of size n,
the training slice has `floor(4n/5) ≥ 1` elements as soon as `n ≥ 2`;
a label occurring exactly once is not represented). -/
theorem claim_C2_amended_label_coverage (data : List Record) (lab : String)
    (h : 2 ≤ (data.filter (fun r => r.getLabel = lab)).length) :
    ∃ r ∈ (split_train_test data (4/5)).1, r.getLabel = lab := by
  have hg : findGroup (groupByLabel data) lab = data.filter (fun r => r.getLabel = lab) :=
    findGroup_groupByLabel data lab
  have hne : findGroup (groupByLabel data) lab ≠ [] := by
    rw [hg]
    intro hnil
    rw [hnil] at h
    simp at h
  have hmem : (lab, findGroup (groupByLabel data) lab) ∈ groupByLabel data :=
    findGroup_mem _ _ hne
  set g := findGroup (groupByLabel data) lab with hgdef
  have hlen : 2 ≤ g.length := by rw [hg]; exact h
  obtain ⟨r, t, hrt⟩ : ∃ r t, g = r :: t := by
    cases hgg : g with
    | nil => rw [hgg] at hlen; simp at hlen
    | cons r t => exact ⟨r, t, rfl⟩
  obtain ⟨m, hm⟩ : ∃ m, (4 * g.length) / 5 = m + 1 := by
    refine ⟨(4 * g.length) / 5 - 1, ?_⟩
    omega
  have hr_take : r ∈ g.take ((4 * g.length) / 5) := by
    rw [hm, hrt]
    simp [List.take_cons]
  have hr_train : r ∈ (split_train_test data (4/5)).1 := by
    rw [split_train_test_four_fifths]
    exact List.mem_flatMap.mpr ⟨(lab, g), hmem, hr_take⟩
  have hr_lab : r.getLabel = lab := by
    have hrg : r ∈ g := by rw [hrt]; exact List.mem_cons_self r t
    rw [hg] at hrg
    simpa using (List.mem_filter.mp hrg).2
  exact ⟨r, hr_train, hr_lab⟩

/-- C2 witness: for two records with label "2", the hypothesis holds and
a label-"2" record reaches the training list. -/
theorem claim_C2_amended_label_coverage_witness :
    2 ≤ (([{ instruction := "q", input := "", output := "a", label := some "2" },
           { instruction := "p", input := "", output := "b", label := some "2" }] :
          List Record).filter (fun r => r.getLabel = "2")).length
    ∧ ∃ r ∈ (split_train_test
          [{ instruction := "q", input := "", output := "a", label := some "2" },
           { instruction := "p", input := "", output := "b", label := some "2" }] (4/5)).1,
        r.getLabel = "2" :=
  ⟨by decide,
   claim_C2_amended_label_coverage
     [{ instruction := "q", input := "", output := "a", label := some "2" },
      { instruction := "p", input := "", output := "b", label := some "2" }] "2" (by decide)⟩

/-- C3: `convert_mcq_to_alpaca` emits exactly one record per qa_pair
(so the record count equals the total qa_pair count); each record's
input is the question followed by one line per option (`key: value` in
iteration order for a mapping, verbatim for a sequence), the assembled
block stripped of leading/trailing whitespace, with output the answer
text and label "1"; and the spec's concrete scenario holds. -/
theorem claim_C3_mcq_converter (entries : List McqEntry) :
    convert_mcq_to_alpaca entries =
      (entries.flatMap fun entry => entry.qa_pairs.getD []).map (fun qa =>
        { instruction := "请在以下四个选项中选择一个最合适的答案。",
          input := pyStrip ((qa.question.getD "") ++ "\n" ++
            String.join ((optionLinesSpec (qa.option.getD (OptionField.omap []))).map
              (fun line => line ++ "\n"))),
          output := qa.answer.getD "",
          label := some "1" })
    ∧ (convert_mcq_to_alpaca entries).length =
        ((entries.map fun entry => (entry.qa_pairs.getD []).length).sum)
    ∧ convert_mcq_to_alpaca
        [{ qa_pairs := some [{ question := some "Q1",
                               option := some (OptionField.omap [("A", "x"), ("B", "y")]),
                               answer := some "A" }] }] =
      [{ instruction := "请在以下四个选项中选择一个最合适的答案。",
         input := "Q1\nA: x\nB: y",
         output := "A",
         label := some "1" }] := by
  refine ⟨?_, ?_, by decide⟩
  · rw [convert_mcq_to_alpaca_eq]
    have hf : ∀ qa : McqPair,
        pyStrip (mcqInputText (qa.question.getD "") (qa.option.getD (OptionField.omap [])))
          = pyStrip ((qa.question.getD "") ++ "\n" ++
              String.join ((optionLinesSpec (qa.option.getD (OptionField.omap []))).map
                (fun line => line ++ "\n"))) := fun qa => by
      rw [mcqInputText_eq_spec]
    simp only [hf]
  · rw [convert_mcq_to_alpaca_eq]
    simp only [List.length_map, List.length_flatMap]
    rfl

/-- C4: the merged record list handed to the split stage is exactly the
converted MCQ records, then the converted QA records, then the converted
style records, each in its converter's order; and a successful pipeline
run splits exactly that list. -/
theorem claim_C4_concatenation_order (mcq_data : List McqEntry) (qa_data : List QaEntry)
    (style_data : List StyleEntry) :
    merged_finetune_records mcq_data qa_data style_data =
      convert_mcq_to_alpaca mcq_data ++ convert_qa_to_alpaca qa_data ++
        convert_style_to_alpaca style_data
    ∧ (merge_finetune_data (some mcq_data) (some qa_data) (some style_data)).2 =
        some (split_train_test (merged_finetune_records mcq_data qa_data style_data) (4/5)) :=
  ⟨rfl, rfl⟩

/-- C5: if any configured input fails to load, the run produces no
result and writes no file — all loads happen before any write, for both
the fine-tune pipeline and the pretrain pipeline. -/
theorem claim_C5_load_failure_aborts
    (mcq_load : Option (List McqEntry)) (qa_load : Option (List QaEntry))
    (style_load : Option (List StyleEntry))
    (original_load : Option (List OriginalEntry)) (reframe_load : Option (List ReframeEntry))
    (author : String)
    (hfin : mcq_load = none ∨ qa_load = none ∨ style_load = none)
    (hpre : original_load = none ∨ reframe_load = none) :
    ((merge_finetune_data mcq_load qa_load style_load).2 = none
      ∧ ∀ name, PipelineEvent.writeFile name ∉ (merge_finetune_data mcq_load qa_load style_load).1)
    ∧ ((merge_json_files original_load reframe_load author).2 = none
      ∧ ∀ name, PipelineEvent.writeFile name ∉
          (merge_json_files original_load reframe_load author).1) := by
  constructor
  · cases mcq_load with
    | none => simp [merge_finetune_data]
    | some m =>
        cases qa_load with
        | none => simp [merge_finetune_data]
        | some q =>
            cases style_load with
            | none => simp [merge_finetune_data]
            | some s => simp at hfin
  · cases original_load with
    | none => simp [merge_json_files]
    | some o =>
        cases reframe_load with
        | none => simp [merge_json_files]
        | some rf => simp at hpre

/-- C5 witness: with the MCQ load and the original load failing, both
pipelines produce no result and write neither output file. -/
theorem claim_C5_load_failure_aborts_witness :
    (merge_finetune_data (none : Option (List McqEntry)) (some []) (some [])).2 = none
    ∧ PipelineEvent.writeFile "fine_tune.json" ∉
        (merge_finetune_data (none : Option (List McqEntry)) (some []) (some [])).1
    ∧ (merge_json_files (none : Option (List OriginalEntry)) (some []) "鲁迅").2 = none
    ∧ PipelineEvent.writeFile "pre_train.json" ∉
        (merge_json_files (none : Option (List OriginalEntry)) (some []) "鲁迅").1 := by
  obtain ⟨⟨h1, h2⟩, h3, h4⟩ := claim_C5_load_failure_aborts none (some []) (some [])
    none (some []) "鲁迅" (Or.inl rfl) (Or.inl rfl)
  exact ⟨h1, h2 "fine_tune.json", h3, h4 "pre_train.json"⟩

/-- C6: `convert_original_to_pretrain` emits one record per entry whose
text is the metadata `[作者: author][标题: title]` concatenated with no
separator before the body; `convert_reframe_to_pretrain` is a
pass-through; and the merged pretrain list is originals then reframes. -/
theorem claim_C6_pretrain_pipeline (author : String) (originals : List OriginalEntry)
    (reframes : List ReframeEntry) :
    convert_original_to_pretrain originals author =
      originals.map (fun entry =>
        { text := ("[作者: " ++ author ++ "][标题: " ++ entry.title.getD "" ++ "]") ++
            entry.text.getD "" })
    ∧ (convert_original_to_pretrain originals author).length = originals.length
    ∧ convert_reframe_to_pretrain reframes =
        reframes.map (fun entry => { text := entry.text.getD "" })
    ∧ (convert_reframe_to_pretrain reframes).length = reframes.length
    ∧ (merge_json_files (some originals) (some reframes) author).2 =
        some (convert_original_to_pretrain originals author ++
          convert_reframe_to_pretrain reframes) := by
  refine ⟨convert_original_to_pretrain_eq originals author, ?_,
    convert_reframe_to_pretrain_eq reframes, ?_, rfl⟩
  · rw [convert_original_to_pretrain_eq]
    simp
  · rw [convert_reframe_to_pretrain_eq]
    simp

/-- C7: a qa_pair whose `option` value is neither a mapping nor a
sequence is still converted (no error is possible in the embedding and
none is raised by the source's if/elif chain): the emitted record's
input degenerates to the stripped question text alone. -/
theorem claim_C7_other_option_degenerates (qa : McqPair)
    (h : qa.option = some OptionField.other) :
    convert_mcq_to_alpaca [{ qa_pairs := some [qa] }] =
      [{ instruction := "请在以下四个选项中选择一个最合适的答案。",
         input := pyStrip (qa.question.getD ""),
         output := qa.answer.getD "",
         label := some "1" }] := by
  rw [convert_mcq_to_alpaca_eq]
  simp [h, mcqInputText, pyStrip_append_newline]

/-- C7 witness: a concrete qa_pair with a non-mapping, non-sequence
option value yields exactly one record with the stripped question as
input. -/
theorem claim_C7_other_option_degenerates_witness :
    convert_mcq_to_alpaca
        [{ qa_pairs := some [{ question := some " Q7 ",
                               option := some OptionField.other,
                               answer := some "B" }] }] =
      [{ instruction := "请在以下四个选项中选择一个最合适的答案。",
         input := pyStrip " Q7 ",
         output := "B",
         label := some "1" }]
    ∧ pyStrip " Q7 " = "Q7" :=
  ⟨claim_C7_other_option_degenerates
    { question := some " Q7 ", option := some OptionField.other, answer := some "B" } rfl,
   by decide⟩

/-- C8: `convert_qa_to_alpaca` emits one record per qa_pair, with
instruction the question text, input exactly the empty string, output
the answer text and label "2"; missing question or answer fields
default to the empty string via `Option.getD`. -/
theorem claim_C8_qa_converter (entries : List QaEntry) :
    convert_qa_to_alpaca entries =
      (entries.flatMap fun entry => entry.qa_pairs.getD []).map (fun qa =>
        { instruction := qa.question.getD "",
          input := "",
          output := qa.answer.getD "",
          label := some "2" })
    ∧ (convert_qa_to_alpaca entries).length =
        ((entries.map fun entry => (entry.qa_pairs.getD []).length).sum)
    ∧ convert_qa_to_alpaca [{ qa_pairs := some [{ question := none, answer := none }] }] =
        [{ instruction := "", input := "", output := "", label := some "2" }] := by
  refine ⟨convert_qa_to_alpaca_eq entries, ?_, by decide⟩
  rw [convert_qa_to_alpaca_eq]
  simp only [List.length_map, List.length_flatMap]
  rfl

/-- C9: every record of the three fine-tune converters carries the four
string fields of `Record` (present by construction in the embedding),
with the fixed label and instruction of its converter; entries with
missing source fields are converted without error, substituting empty
defaults. -/
theorem claim_C9_record_shape (mcq_entries : List McqEntry) (qa_entries : List QaEntry)
    (style_entries : List StyleEntry) :
    (∀ r ∈ convert_mcq_to_alpaca mcq_entries,
       r.label = some "1" ∧ r.instruction = "请在以下四个选项中选择一个最合适的答案。")
    ∧ (∀ r ∈ convert_qa_to_alpaca qa_entries, r.label = some "2" ∧ r.input = "")
    ∧ (∀ r ∈ convert_style_to_alpaca style_entries,
       r.label = some "3" ∧ r.instruction = "请将以下文本改写为更平白的表达方式。")
    ∧ convert_mcq_to_alpaca
        [{ qa_pairs := some [{ question := none, option := none, answer := none }] }] =
        [{ instruction := "请在以下四个选项中选择一个最合适的答案。", input := "", output := "",
           label := some "1" }]
    ∧ convert_qa_to_alpaca [{ qa_pairs := some [{ question := none, answer := none }] }] =
        [{ instruction := "", input := "", output := "", label := some "2" }]
    ∧ convert_style_to_alpaca
        [{ transformed_sentences := some [{ original := none, plain := none }] }] =
        [{ instruction := "请将以下文本改写为更平白的表达方式。", input := "", output := "",
           label := some "3" }] := by
  refine ⟨?_, ?_, ?_, by decide, by decide, by decide⟩
  · intro r hr
    rw [convert_mcq_to_alpaca_eq] at hr
    simp only [List.mem_map] at hr
    obtain ⟨qa, _, rfl⟩ := hr
    exact ⟨rfl, rfl⟩
  · intro r hr
    rw [convert_qa_to_alpaca_eq] at hr
    simp only [List.mem_map] at hr
    obtain ⟨qa, _, rfl⟩ := hr
    exact ⟨rfl, rfl⟩
  · intro r hr
    rw [convert_style_to_alpaca_eq] at hr
    simp only [List.mem_map] at hr
    obtain ⟨item, _, rfl⟩ := hr
    exact ⟨rfl, rfl⟩

/-- C9 witness: the known output records of singleton inputs are
members of the converter outputs, and the theorem yields their label
and fixed-field facts. -/
theorem claim_C9_record_shape_witness :
    ({ instruction := "请在以下四个选项中选择一个最合适的答案。", input := "", output := "", label := some "1" } : Record).label = some "1"
    ∧ ({ instruction := "", input := "", output := "", label := some "2" } : Record).label = some "2"
    ∧ ({ instruction := "", input := "", output := "", label := some "2" } : Record).input = ""
    ∧ ({ instruction := "请将以下文本改写为更平白的表达方式。", input := "", output := "", label := some "3" } : Record).label = some "3" := by
  obtain ⟨h1, h2, h3, _, _, _⟩ := claim_C9_record_shape
    [{ qa_pairs := some [{ question := none, option := none, answer := none }] }]
    [{ qa_pairs := some [{ question := none, answer := none }] }]
    [{ transformed_sentences := some [{ original := none, plain := none }] }]
  exact ⟨(h1 _ (by decide)).1, (h2 _ (by decide)).1, (h2 _ (by decide)).2, (h3 _ (by decide)).1⟩

/-- C10: for every input and every train_ratio, the split loses and
duplicates nothing: train ++ test is a permutation of the input (so
every record keeps its multiplicity), per label group the train slice
followed by the test slice is the original group, and a record with no
label field is grouped under the key "unknown". -/
theorem claim_C10_split_is_partition (data : List Record) (train_ratio : ℚ) :
    ((split_train_test data train_ratio).1 ++ (split_train_test data train_ratio).2).Perm data
    ∧ (∀ r : Record,
        ((split_train_test data train_ratio).1 ++
          (split_train_test data train_ratio).2).count r = data.count r)
    ∧ (∀ p ∈ groupByLabel data,
        pySliceTo p.2 (pyTrunc ((p.2.length : ℚ) * train_ratio)) ++
          pySliceFrom p.2 (pyTrunc ((p.2.length : ℚ) * train_ratio)) = p.2)
    ∧ (∀ r : Record, r.label = none → r.getLabel = "unknown") := by
  have hperm : ((split_train_test data train_ratio).1 ++
      (split_train_test data train_ratio).2).Perm data := by
    rw [split_train_test_eq]
    refine (flatMap_append_perm _ _ _).trans ?_
    have hfun : (fun p : String × List Record =>
          pySliceTo p.2 (pyTrunc ((p.2.length : ℚ) * train_ratio)) ++
            pySliceFrom p.2 (pyTrunc ((p.2.length : ℚ) * train_ratio)))
        = fun p : String × List Record => p.2 :=
      funext fun p => pySliceTo_append_pySliceFrom p.2 _
    rw [hfun]
    exact flatten_groupByLabel_perm data
  exact ⟨hperm, fun r => hperm.count_eq r,
    fun p _ => pySliceTo_append_pySliceFrom p.2 _,
    fun r h => by simp [Record.getLabel, h]⟩

/-- C10 witness: on a concrete two-record input at ratio 4/5 the
permutation, count, per-group partition and "unknown" facts hold. -/
theorem claim_C10_split_is_partition_witness :
    ((split_train_test
        [{ instruction := "a", input := "", output := "", label := some "1" },
         { instruction := "b", input := "", output := "", label := none }] (4/5)).1 ++
      (split_train_test
        [{ instruction := "a", input := "", output := "", label := some "1" },
         { instruction := "b", input := "", output := "", label := none }] (4/5)).2).Perm
      [{ instruction := "a", input := "", output := "", label := some "1" },
       { instruction := "b", input := "", output := "", label := none }]
    ∧ pySliceTo [({ instruction := "a", input := "", output := "", label := some "1" } : Record)] (pyTrunc ((([({ instruction := "a", input := "", output := "", label := some "1" } : Record)] : List Record).length : ℚ) * (4/5))) ++ pySliceFrom [({ instruction := "a", input := "", output := "", label := some "1" } : Record)] (pyTrunc ((([({ instruction := "a", input := "", output := "", label := some "1" } : Record)] : List Record).length : ℚ) * (4/5))) = [({ instruction := "a", input := "", output := "", label := some "1" } : Record)]
    ∧ ({ instruction := "b", input := "", output := "", label := none } : Record).getLabel
        = "unknown" := by
  obtain ⟨h1, _, h3, h4⟩ := claim_C10_split_is_partition
    [{ instruction := "a", input := "", output := "", label := some "1" },
     { instruction := "b", input := "", output := "", label := none }] (4/5)
  exact ⟨h1,
    h3 ("1", [{ instruction := "a", input := "", output := "", label := some "1" }]) (by decide),
    h4 _ rfl⟩
